import Mathlib

/-!
Shallow embedding of `src/pdf_ingestion.py`.

The program is a linear pipeline: `collect_pdf_files` lists up to `limit`
PDF files of a directory sorted by name, `extract_pages` turns one PDF
document into (page_number, stripped text) pairs, `store_pages_in_db`
upserts (file_name, page_number, content) triples into an SQLite table
inside one `with connection:` transaction, and `ingest_pdfs` / `main`
orchestrate the three with fail-fast validation.

Modelling choices, each tied to the Python source:
* A PDF document is modelled by the sequence of results of
  `page.extract_text()` for its pages, `Option String` because the
  extraction may yield no text (`None`).  `PdfReader` itself is a black
  box: the filesystem model maps a file name to `Except Unit PdfContent`,
  `Except.error` standing for a `DocumentParseError`-class exception.
* Python `str.strip()` is `pyStrip`: drop leading and trailing
  whitespace characters (the ASCII whitespace characters Python strips;
  the further Unicode space characters behave identically and are
  omitted from the predicate).
* `sorted(...)` on paths compares code points of the names, `strLe`.
* The slice `pdf_files[:limit]` is `pySlice`: Python slicing clamps a
  nonnegative bound from above and counts a negative bound from the end.
* The SQLite table is an association list of rows
  `((file_name, page_number), content)` with nullable content; `INSERT
  OR REPLACE` removes the row with the same primary key and appends the
  new one (`upsert`).  The `with connection:` block is modelled
  operationally: `CREATE TABLE IF NOT EXISTS` runs in autocommit mode
  and commits at once, the batch of `INSERT`s updates a pending view,
  and exit of the block commits the pending view on success or discards
  it on an exception.  A `StoreFault` oracle says which environment
  failure, if any, the database raises.
* Runs return an event trace (`listed`, `extracted f`, `dbOpened`) so
  that "fails before any extraction / database access" is expressible.
-/

namespace PdfIngestion

/-- The whitespace characters `str.strip()` removes (ASCII part). -/
def isPyWS (c : Char) : Bool :=
  c = ' ' || c = '\t' || c = '\n' || c = '\r' || c = '\x0b' || c = '\x0c'

/-- `str.strip()` on the character list: drop whitespace from both ends. -/
def pyStripList (l : List Char) : List Char :=
  ((l.dropWhile isPyWS).reverse.dropWhile isPyWS).reverse

/-- Python `text.strip()`. -/
def pyStrip (s : String) : String := String.mk (pyStripList s.data)

/-- Code-point comparison of character lists, Python's `<=` on strings. -/
def charsLe : List Char → List Char → Bool
  | [], _ => true
  | _ :: _, [] => false
  | a :: as, b :: bs =>
    if a.toNat < b.toNat then true
    else if b.toNat < a.toNat then false
    else charsLe as bs

/-- Python's `<=` on strings (and on `pathlib` paths inside one directory). -/
def strLe (a b : String) : Bool := charsLe a.data b.data

/-- A file name matches the glob pattern `*.pdf`. -/
def matchesGlobPdf (name : String) : Bool :=
  List.isSuffixOf ".pdf".data name.data

/-- Python's `l[:n]` slice: nonnegative `n` keeps the first `n` entries
(clamped at the length), negative `n` drops `|n|` entries from the end
(clamped at zero). -/
def pySlice (n : Int) (l : List α) : List α :=
  if 0 ≤ n then l.take n.toNat else l.take (l.length - n.natAbs)

/-- `collect_pdf_files`: `sorted(source_dir.glob("*.pdf"))[:limit]`.
The directory is given by the list of names of its direct entries. -/
def collect_pdf_files (listing : List String) (limit : Int) : List String :=
  pySlice limit
    (List.insertionSort (fun a b => strLe a b = true) (listing.filter matchesGlobPdf))

/-- A parsed PDF document: for every physical page in order, the result
of `page.extract_text()` (`none` when the page yields no text object). -/
structure PdfContent where
  pages : List (Option String)
deriving DecidableEq

/-- `extract_pages`: enumerate the pages from 1 and strip
`page.extract_text() or ""`. -/
def extract_pages (doc : PdfContent) : List (Nat × String) :=
  (List.enumFrom 1 doc.pages).map (fun ip => (ip.1, pyStrip (ip.2.getD "")))

/-- Primary key of the `pdf_pages` table: `(file_name, page_number)`. -/
abbrev PageKey := String × Nat

/-- A row of `pdf_pages`; the `content` column is nullable. -/
abbrev Row := PageKey × Option String

/-- Contents of the `pdf_pages` table. -/
abbrev Table := List Row

/-- An extracted record `(file_name, page_number, content)`. -/
abbrev PageRec := String × Nat × String

/-- The primary-key part of a record. -/
def recKey (r : PageRec) : PageKey := (r.1, r.2.1)

/-- The row the `INSERT` statement writes for a record. -/
def recRow (r : PageRec) : Row := ((r.1, r.2.1), some r.2.2)

/-- `INSERT OR REPLACE`: delete any row with the same primary key, then
insert the new row. -/
def upsert (t : Table) (k : PageKey) (v : Option String) : Table :=
  t.filter (fun row => decide (row.1 ≠ k)) ++ [(k, v)]

/-- Run the whole batch of upserts in order. -/
def applyInserts (t : Table) : List PageRec → Table
  | [] => t
  | r :: rs => applyInserts (upsert t (recKey r) (some r.2.2)) rs

/-- Environment failure injected into `store_pages_in_db`:
`connectFail` for `sqlite3.connect` raising, `insertFail j` for the
`executemany` batch raising at its `j`-th statement, `commitFail` for
the final commit of the `with` block raising. -/
inductive StoreFault where
  | ok
  | connectFail
  | insertFail (j : Nat)
  | commitFail
deriving DecidableEq

/-- Execute the `INSERT` statements of `executemany` one at a time on
the pending (in-transaction) view of the table; `some j` makes the
`j`-th statement raise.  Returns the pending view and whether an
exception was raised. -/
def runInserts (pending : Table) : List PageRec → Option Nat → Table × Bool
  | [], _ => (pending, false)
  | r :: rs, Option.none => runInserts (upsert pending (recKey r) (some r.2.2)) rs Option.none
  | _ :: _, some 0 => (pending, true)
  | r :: rs, some (j + 1) => runInserts (upsert pending (recKey r) (some r.2.2)) rs (some j)

/-- Outcome of `store_pages_in_db`: the durable database state
(`Option.none` when no database file exists) and whether the call
raised. -/
structure StoreResult where
  db : Option Table
  err : Bool
deriving DecidableEq

/-- The index of the `INSERT` statement the fault makes raise, if any. -/
def insertFaultIdx : StoreFault → Option Nat
  | .insertFail j => some j
  | _ => Option.none

/-- `store_pages_in_db`: connect (creating the file), `CREATE TABLE IF
NOT EXISTS` (a DDL statement, executed in autocommit mode, so the empty
table becomes durable at once), then the batch of upserts inside the
transaction of the `with connection:` block, which commits on success
and rolls the pending inserts back when anything raises. -/
def store_pages_in_db (records : List PageRec) (db : Option Table) (fault : StoreFault) :
    StoreResult :=
  if fault = StoreFault.connectFail then ⟨db, true⟩
  else if (runInserts (db.getD []) records (insertFaultIdx fault)).2
      || decide (fault = StoreFault.commitFail) then ⟨some (db.getD []), true⟩
  else ⟨some (runInserts (db.getD []) records (insertFaultIdx fault)).1, false⟩

/-- The world `ingest_pdfs` runs in: the names of the entries directly
inside the source directory, and for each name the result of parsing it
as a PDF (`Except.error` = `PdfReader` raising on that file). -/
structure FS where
  listing : List String
  read : String → Except Unit PdfContent

/-- Observable side effects of a run. -/
inductive Event where
  | listed
  | extracted (file : String)
  | dbOpened
deriving DecidableEq

/-- The terminal outcome of a run; everything except `ok` is an
uncaught exception. -/
inductive IngestResult where
  | ok
  | invalidSourceDir
  | noFilesFound
  | parseFailed (file : String)
  | storeFailed
deriving DecidableEq

/-- Process exit status: uncaught exceptions exit non-zero. -/
def exitCode : IngestResult → Nat
  | .ok => 0
  | _ => 1

/-- A finished run: outcome, final database state, event trace. -/
structure RunResult where
  res : IngestResult
  db : Option Table
  trace : List Event
deriving DecidableEq

/-- The extraction loop of `ingest_pdfs`: parse the files in order,
tagging each page record with the file's name; the first file whose
parse raises aborts the loop with that file. -/
def extractAll (fs : FS) : List String → Except String (List PageRec)
  | [] => .ok []
  | f :: rest =>
    match fs.read f with
    | .error _ => .error f
    | .ok doc =>
      match extractAll fs rest with
      | .error g => .error g
      | .ok recs => .ok ((extract_pages doc).map (fun pc => (f, pc.1, pc.2)) ++ recs)

/-- Whether parsing the file succeeds (used only to describe the trace
of a failing run: the files extracted before the failing one). -/
def readOk (fs : FS) (f : String) : Bool :=
  match fs.read f with
  | .ok _ => true
  | .error _ => false

/-- `ingest_pdfs`: list the files; raise `FileNotFoundError` when none;
extract every page of every file into one in-memory batch; call
`store_pages_in_db` once at the end. -/
def ingest_pdfs (fs : FS) (db : Option Table) (limit : Int) (fault : StoreFault) : RunResult :=
  if (collect_pdf_files fs.listing limit).isEmpty then ⟨.noFilesFound, db, [.listed]⟩
  else
    match extractAll fs (collect_pdf_files fs.listing limit) with
    | .error f =>
      ⟨.parseFailed f, db,
        .listed :: ((collect_pdf_files fs.listing limit).takeWhile (readOk fs)).map .extracted⟩
    | .ok records =>
      ⟨if (store_pages_in_db records db fault).err then .storeFailed else .ok,
        (store_pages_in_db records db fault).db,
        (.listed :: (collect_pdf_files fs.listing limit).map .extracted) ++ [.dbOpened]⟩

/-- What `Path.exists()` and `Path.is_dir()` return for the
`--source-dir` argument. -/
structure PathInfo where
  pathExists : Bool
  isDir : Bool

/-- `main`: raise `NotADirectoryError` unless the source path exists and
is a directory, then run `ingest_pdfs`. -/
def main (src : PathInfo) (fs : FS) (db : Option Table) (limit : Int) (fault : StoreFault) :
    RunResult :=
  if !src.pathExists || !src.isDir then ⟨.invalidSourceDir, db, []⟩
  else ingest_pdfs fs db limit fault

/-- `SELECT content FROM pdf_pages WHERE file_name = ? AND page_number = ?`:
the content of the row with the given primary key, when one exists. -/
def queryPage (t : Table) (fn : String) (p : Nat) : Option (Option String) :=
  (t.find? (fun row => decide (row.1 = (fn, p)))).map (fun row => row.2)

/-- The primary keys of the rows of a table. -/
def tableKeys (t : Table) : List PageKey := t.map (fun row => row.1)

/-- A two-page document used to instantiate the theorems on concrete
inputs: page 1 extracts `" hi "`, page 2 has no extractable text. -/
def sampleDoc : PdfContent := ⟨[some " hi ", Option.none]⟩

/-- A directory with two PDF files and one other file, every PDF
parseable. -/
def sampleFS : FS := ⟨["b.pdf", "a.pdf", "nb.txt"], fun _ => Except.ok sampleDoc⟩

/-- A directory where the second PDF (in sorted order) fails to parse. -/
def sampleFailFS : FS :=
  ⟨["a.pdf", "c.pdf"], fun g => if g = "a.pdf" then Except.ok sampleDoc else Except.error ()⟩

/-- A directory containing no PDF file. -/
def emptyFS : FS := ⟨["readme.txt"], fun _ => Except.error ()⟩

/-! ### Helper lemmas -/

theorem charsLe_total : ∀ (a b : List Char), charsLe a b = true ∨ charsLe b a = true := by
  intro a
  induction a with
  | nil => intro b; left; rfl
  | cons x xs ih =>
    intro b
    cases b with
    | nil => right; rfl
    | cons y ys =>
      simp only [charsLe]
      rcases Nat.lt_trichotomy x.toNat y.toNat with h | h | h
      · left; simp [h]
      · have h1 : ¬ x.toNat < y.toNat := by omega
        have h2 : ¬ y.toNat < x.toNat := by omega
        simpa [h1, h2] using ih ys
      · right; simp [h]

theorem charsLe_trans :
    ∀ (a b c : List Char), charsLe a b = true → charsLe b c = true → charsLe a c = true := by
  intro a
  induction a with
  | nil => intro b c _ _; rfl
  | cons x xs ih =>
    intro b c h1 h2
    cases b with
    | nil => simp [charsLe] at h1
    | cons y ys =>
      cases c with
      | nil => simp [charsLe] at h2
      | cons z zs =>
        simp only [charsLe] at h1 h2 ⊢
        rcases Nat.lt_trichotomy x.toNat y.toNat with hxy | hxy | hxy <;>
          rcases Nat.lt_trichotomy y.toNat z.toNat with hyz | hyz | hyz
        · simp [show x.toNat < z.toNat by omega]
        · simp [show x.toNat < z.toNat by omega]
        · simp [show ¬ y.toNat < z.toNat by omega, show z.toNat < y.toNat by omega] at h2
        · simp [show x.toNat < z.toNat by omega]
        · rw [if_neg (show ¬ x.toNat < z.toNat by omega),
            if_neg (show ¬ z.toNat < x.toNat by omega)]
          rw [if_neg (show ¬ x.toNat < y.toNat by omega),
            if_neg (show ¬ y.toNat < x.toNat by omega)] at h1
          rw [if_neg (show ¬ y.toNat < z.toNat by omega),
            if_neg (show ¬ z.toNat < y.toNat by omega)] at h2
          exact ih ys zs h1 h2
        · simp [show ¬ y.toNat < z.toNat by omega, show z.toNat < y.toNat by omega] at h2
        · simp [show ¬ x.toNat < y.toNat by omega, show y.toNat < x.toNat by omega] at h1
        · simp [show ¬ x.toNat < y.toNat by omega, show y.toNat < x.toNat by omega] at h1
        · simp [show ¬ x.toNat < y.toNat by omega, show y.toNat < x.toNat by omega] at h1

instance : IsTotal String (fun a b => strLe a b = true) :=
  ⟨fun a b => charsLe_total a.data b.data⟩

instance : IsTrans String (fun a b => strLe a b = true) :=
  ⟨fun a b c => charsLe_trans a.data b.data c.data⟩

theorem pyStripList_idem (l : List Char) : pyStripList (pyStripList l) = pyStripList l := by
  have key : ∀ m : List Char, pyStripList m = List.rdropWhile isPyWS (m.dropWhile isPyWS) :=
    fun _ => rfl
  rw [key, key]
  have h1 : List.dropWhile isPyWS (List.rdropWhile isPyWS (l.dropWhile isPyWS)) =
      List.rdropWhile isPyWS (l.dropWhile isPyWS) := by
    rw [List.dropWhile_eq_self_iff]
    intro hl
    have hpre := List.rdropWhile_prefix isPyWS (l.dropWhile isPyWS)
    have hlt : 0 < (l.dropWhile isPyWS).length := lt_of_lt_of_le hl hpre.length_le
    have hget : (List.rdropWhile isPyWS (l.dropWhile isPyWS)).get ⟨0, hl⟩ =
        (l.dropWhile isPyWS).get ⟨0, hlt⟩ := by
      simp only [List.get_eq_getElem]
      exact hpre.getElem hl
    rw [hget]
    exact List.dropWhile_get_zero_not isPyWS l hlt
  rw [h1, List.rdropWhile_idempotent]

theorem pyStrip_idem (s : String) : pyStrip (pyStrip s) = pyStrip s := by
  unfold pyStrip
  exact congrArg String.mk (pyStripList_idem s.data)

theorem recRow_fst (r : PageRec) : (recRow r).1 = recKey r := rfl

theorem applyInserts_eq (B : List PageRec) :
    ∀ t : Table, (B.map recKey).Nodup →
      applyInserts t B =
        t.filter (fun row => decide (row.1 ∉ B.map recKey)) ++ B.map recRow := by
  induction B with
  | nil =>
    intro t _
    simp [applyInserts]
  | cons r rs ih =>
    intro t hnd
    rw [List.map_cons, List.nodup_cons] at hnd
    obtain ⟨hk, hnd'⟩ := hnd
    show applyInserts (upsert t (recKey r) (some r.2.2)) rs = _
    rw [ih _ hnd']
    unfold upsert
    rw [List.filter_append]
    have h1 : List.filter (fun row : Row => decide (row.1 ∉ rs.map recKey))
        [(recKey r, some r.2.2)] = [(recKey r, some r.2.2)] := by
      simp [hk]
    rw [h1, List.filter_filter]
    have h2 : t.filter
          (fun a : Row => decide (a.1 ∉ rs.map recKey) && decide (a.1 ≠ recKey r)) =
        t.filter (fun row : Row => decide (row.1 ∉ (r :: rs).map recKey)) := by
      apply List.filter_congr
      intro a _
      by_cases e1 : a.1 = recKey r <;> by_cases e2 : a.1 ∈ rs.map recKey <;>
        simp [e1, e2]
    rw [h2]
    simp [recRow, recKey]

theorem applyInserts_twice (B : List PageRec) (t : Table) (h : (B.map recKey).Nodup) :
    applyInserts (applyInserts t B) B = applyInserts t B := by
  rw [applyInserts_eq B t h, applyInserts_eq B _ h, List.filter_append]
  have h1 : (B.map recRow).filter (fun row : Row => decide (row.1 ∉ B.map recKey)) = [] := by
    rw [List.filter_eq_nil_iff]
    intro row hrow
    obtain ⟨r, hr, rfl⟩ := List.mem_map.mp hrow
    simp only [recRow_fst, decide_not, Bool.not_eq_true, Bool.not_eq_false',
      decide_eq_true_eq]
    exact List.mem_map_of_mem recKey hr
  have h2 : (t.filter (fun row : Row => decide (row.1 ∉ B.map recKey))).filter
        (fun row : Row => decide (row.1 ∉ B.map recKey)) =
      t.filter (fun row : Row => decide (row.1 ∉ B.map recKey)) := by
    rw [List.filter_filter]
    apply List.filter_congr
    intro a _
    by_cases e : a.1 ∈ B.map recKey <;> simp [e]
  rw [h1, h2, List.append_nil]

theorem tableKeys_upsert_nodup (t : Table) (k : PageKey) (v : Option String)
    (h : (tableKeys t).Nodup) : (tableKeys (upsert t k v)).Nodup := by
  unfold upsert tableKeys
  rw [List.map_append]
  apply List.Nodup.append
  · have hsub : List.Sublist ((t.filter (fun row : Row => decide (row.1 ≠ k))).map
        (fun row : Row => row.1)) (t.map (fun row : Row => row.1)) :=
      (List.filter_sublist t).map _
    exact (h : (t.map (fun row : Row => row.1)).Nodup).sublist hsub
  · exact List.nodup_singleton k
  · intro a ha hb
    simp only [List.map_cons, List.map_nil, List.mem_singleton] at hb
    obtain ⟨row, hrow, rfl⟩ := List.mem_map.mp ha
    have := (List.mem_filter.mp hrow).2
    simp only [decide_eq_true_eq] at this
    exact this hb

theorem tableKeys_applyInserts_nodup (B : List PageRec) :
    ∀ t : Table, (tableKeys t).Nodup → (tableKeys (applyInserts t B)).Nodup := by
  induction B with
  | nil => intro t h; exact h
  | cons r rs ih =>
    intro t h
    exact ih _ (tableKeys_upsert_nodup _ _ _ h)

theorem runInserts_no_fault (B : List PageRec) :
    ∀ t : Table, runInserts t B Option.none = (applyInserts t B, false) := by
  induction B with
  | nil => intro t; rfl
  | cons r rs ih => intro t; exact ih _

theorem runInserts_fault_raises (B : List PageRec) :
    ∀ (t : Table) (j : Nat), j < B.length → (runInserts t B (some j)).2 = true := by
  induction B with
  | nil =>
    intro t j h
    exact absurd h (by simp)
  | cons r rs ih =>
    intro t j h
    cases j with
    | zero => rfl
    | succ j => exact ih _ j (by simpa using h)

theorem store_no_fault (records : List PageRec) (db : Option Table) :
    store_pages_in_db records db .ok =
      ⟨some (applyInserts (db.getD []) records), false⟩ := by
  unfold store_pages_in_db
  rw [if_neg (by simp)]
  simp [insertFaultIdx, runInserts_no_fault]

theorem store_connectFault (records : List PageRec) (db : Option Table) :
    store_pages_in_db records db .connectFail = ⟨db, true⟩ := by
  unfold store_pages_in_db
  rw [if_pos rfl]

theorem store_commitFault (records : List PageRec) (db : Option Table) :
    store_pages_in_db records db .commitFail = ⟨some (db.getD []), true⟩ := by
  unfold store_pages_in_db
  rw [if_neg (by simp)]
  simp [insertFaultIdx, runInserts_no_fault]

theorem store_insertFault (records : List PageRec) (db : Option Table) (j : Nat)
    (hj : j < records.length) :
    store_pages_in_db records db (.insertFail j) = ⟨some (db.getD []), true⟩ := by
  unfold store_pages_in_db
  rw [if_neg (by simp)]
  have h := runInserts_fault_raises records (db.getD []) j hj
  simp [insertFaultIdx, h]

theorem extract_pages_length (doc : PdfContent) :
    (extract_pages doc).length = doc.pages.length := by
  simp [extract_pages]

theorem extract_pages_map_fst (doc : PdfContent) :
    (extract_pages doc).map Prod.fst = List.range' 1 doc.pages.length := by
  unfold extract_pages
  rw [List.map_map]
  have h : (Prod.fst ∘ fun ip : Nat × Option String => (ip.1, pyStrip (ip.2.getD ""))) =
      Prod.fst := rfl
  rw [h, List.enumFrom_map_fst]

theorem extract_pages_fst_nodup (doc : PdfContent) :
    ((extract_pages doc).map Prod.fst).Nodup := by
  rw [extract_pages_map_fst]
  exact List.nodup_range' 1 doc.pages.length

theorem extractAll_nil (fs : FS) : extractAll fs [] = Except.ok [] := rfl

theorem extractAll_cons_error (fs : FS) (f : String) (rest : List String)
    (h : fs.read f = Except.error ()) :
    extractAll fs (f :: rest) = Except.error f := by
  unfold extractAll
  rw [h]

theorem extractAll_cons_ok (fs : FS) (f : String) (rest : List String) (doc : PdfContent)
    (recs : List PageRec) (h1 : fs.read f = Except.ok doc)
    (h2 : extractAll fs rest = Except.ok recs) :
    extractAll fs (f :: rest) =
      Except.ok ((extract_pages doc).map (fun pc => (f, pc.1, pc.2)) ++ recs) := by
  unfold extractAll
  rw [h1, h2]

theorem extractAll_mem_file (fs : FS) :
    ∀ (files : List String) (recs : List PageRec),
      extractAll fs files = Except.ok recs → ∀ r ∈ recs, r.1 ∈ files := by
  intro files
  induction files with
  | nil =>
    intro recs h r hr
    rw [extractAll_nil] at h
    cases h
    cases hr
  | cons f rest ih =>
    intro recs h r hr
    unfold extractAll at h
    cases hread : fs.read f with
    | error e =>
      rw [hread] at h
      cases h
    | ok doc =>
      rw [hread] at h
      cases hrest : extractAll fs rest with
      | error g =>
        rw [hrest] at h
        cases h
      | ok rs =>
        rw [hrest] at h
        cases h
        rcases List.mem_append.mp hr with h1 | h2
        · obtain ⟨pc, _, rfl⟩ := List.mem_map.mp h1
          exact List.mem_cons_self f rest
        · exact List.mem_cons_of_mem f (ih rs hrest r h2)

theorem extractAll_mem_rec (fs : FS) :
    ∀ (files : List String) (recs : List PageRec) (f : String) (doc : PdfContent)
      (p : Nat) (c : String),
      extractAll fs files = Except.ok recs → f ∈ files → fs.read f = Except.ok doc →
      (p, c) ∈ extract_pages doc → (f, p, c) ∈ recs := by
  intro files
  induction files with
  | nil =>
    intro recs f doc p c _ hf _ _
    cases hf
  | cons g rest ih =>
    intro recs f doc p c h hf hread hpage
    unfold extractAll at h
    cases hg : fs.read g with
    | error e =>
      rw [hg] at h
      cases h
    | ok docg =>
      rw [hg] at h
      cases hrest : extractAll fs rest with
      | error g' =>
        rw [hrest] at h
        cases h
      | ok rs =>
        rw [hrest] at h
        cases h
        rcases List.mem_cons.mp hf with rfl | hf'
        · rw [hread] at hg
          cases hg
          exact List.mem_append_left _ (List.mem_map_of_mem _ hpage)
        · exact List.mem_append_right _ (ih rs f doc p c hrest hf' hread hpage)

theorem extractAll_keys_nodup (fs : FS) :
    ∀ (files : List String) (recs : List PageRec),
      files.Nodup → extractAll fs files = Except.ok recs → (recs.map recKey).Nodup := by
  intro files
  induction files with
  | nil =>
    intro recs _ h
    rw [extractAll_nil] at h
    cases h
    exact List.nodup_nil
  | cons f rest ih =>
    intro recs hnd h
    rw [List.nodup_cons] at hnd
    obtain ⟨hf, hnd'⟩ := hnd
    unfold extractAll at h
    cases hread : fs.read f with
    | error e =>
      rw [hread] at h
      cases h
    | ok doc =>
      rw [hread] at h
      cases hrest : extractAll fs rest with
      | error g =>
        rw [hrest] at h
        cases h
      | ok rs =>
        rw [hrest] at h
        cases h
        rw [List.map_append]
        apply List.Nodup.append
        · rw [List.map_map]
          have he : (recKey ∘ fun pc : Nat × String => (f, pc.1, pc.2)) =
              (fun n => (f, n)) ∘ Prod.fst := rfl
          rw [he, ← List.map_map]
          apply List.Nodup.map
          · intro a b hab
            simpa using hab
          · exact extract_pages_fst_nodup doc
        · exact ih rs hnd' hrest
        · intro a ha hb
          rw [List.map_map] at ha
          obtain ⟨pc, _, rfl⟩ := List.mem_map.mp ha
          obtain ⟨r, hr, hkey⟩ := List.mem_map.mp hb
          have hr1 : r.1 ∈ rest := extractAll_mem_file fs rest rs hrest r hr
          have : r.1 = f := by
            have : recKey r = (f, pc.1) := hkey
            unfold recKey at this
            exact (Prod.mk.injEq _ _ _ _).mp this |>.1
          rw [this] at hr1
          exact hf hr1

theorem pySlice_sublist (n : Int) (l : List α) : List.Sublist (pySlice n l) l := by
  unfold pySlice
  split
  · exact List.take_sublist _ _
  · exact List.take_sublist _ _

theorem collect_pdf_files_sublist_sorted (listing : List String) (limit : Int) :
    List.Sublist (collect_pdf_files listing limit)
      (List.insertionSort (fun a b => strLe a b = true) (listing.filter matchesGlobPdf)) :=
  pySlice_sublist limit _

theorem collect_pdf_files_nodup (listing : List String) (limit : Int) (h : listing.Nodup) :
    (collect_pdf_files listing limit).Nodup := by
  have h1 : (listing.filter matchesGlobPdf).Nodup := h.filter _
  have h2 : (List.insertionSort (fun a b => strLe a b = true)
      (listing.filter matchesGlobPdf)).Nodup :=
    (List.perm_insertionSort _ _).nodup_iff.mpr h1
  exact h2.sublist (collect_pdf_files_sublist_sorted listing limit)

theorem collect_pdf_files_mem (listing : List String) (limit : Int) (x : String)
    (hx : x ∈ collect_pdf_files listing limit) :
    matchesGlobPdf x = true ∧ x ∈ listing := by
  have h1 := (collect_pdf_files_sublist_sorted listing limit).subset hx
  have h2 := (List.perm_insertionSort
    (fun a b => strLe a b = true) (listing.filter matchesGlobPdf)).mem_iff.mp h1
  exact ⟨(List.mem_filter.mp h2).2, (List.mem_filter.mp h2).1⟩

theorem collect_pdf_files_sorted (listing : List String) (limit : Int) :
    List.Sorted (fun a b => strLe a b = true) (collect_pdf_files listing limit) :=
  (List.sorted_insertionSort (fun a b => strLe a b = true)
    (listing.filter matchesGlobPdf)).sublist (collect_pdf_files_sublist_sorted listing limit)

theorem collect_pdf_files_length (listing : List String) (L : Int) (hL : 0 ≤ L) :
    (collect_pdf_files listing L).length =
      min L.toNat (listing.filter matchesGlobPdf).length := by
  unfold collect_pdf_files pySlice
  rw [if_pos hL, List.length_take,
    (List.perm_insertionSort (fun a b => strLe a b = true)
      (listing.filter matchesGlobPdf)).length_eq]

theorem ingest_pdfs_of_empty (fs : FS) (db : Option Table) (limit : Int) (fault : StoreFault)
    (h : collect_pdf_files fs.listing limit = []) :
    ingest_pdfs fs db limit fault = ⟨.noFilesFound, db, [.listed]⟩ := by
  unfold ingest_pdfs
  rw [h]
  rfl

theorem ingest_pdfs_of_ok (fs : FS) (db : Option Table) (limit : Int) (fault : StoreFault)
    (recs : List PageRec) (hne : collect_pdf_files fs.listing limit ≠ [])
    (hex : extractAll fs (collect_pdf_files fs.listing limit) = Except.ok recs) :
    ingest_pdfs fs db limit fault =
      ⟨if (store_pages_in_db recs db fault).err then .storeFailed else .ok,
        (store_pages_in_db recs db fault).db,
        (.listed :: (collect_pdf_files fs.listing limit).map .extracted) ++ [.dbOpened]⟩ := by
  unfold ingest_pdfs
  rw [if_neg (by simpa using hne), hex]

theorem ingest_pdfs_of_error (fs : FS) (db : Option Table) (limit : Int) (fault : StoreFault)
    (f : String) (hne : collect_pdf_files fs.listing limit ≠ [])
    (hex : extractAll fs (collect_pdf_files fs.listing limit) = Except.error f) :
    ingest_pdfs fs db limit fault =
      ⟨.parseFailed f, db,
        .listed :: ((collect_pdf_files fs.listing limit).takeWhile (readOk fs)).map
          .extracted⟩ := by
  unfold ingest_pdfs
  rw [if_neg (by simpa using hne), hex]

theorem find?_recRow (recs : List PageRec) :
    ∀ (f : String) (p : Nat) (c : String), (recs.map recKey).Nodup → (f, p, c) ∈ recs →
      (recs.map recRow).find? (fun row => decide (row.1 = (f, p))) =
        some ((f, p), some c) := by
  induction recs with
  | nil =>
    intro f p c _ h
    cases h
  | cons r rs ih =>
    intro f p c hnd hmem
    rw [List.map_cons, List.nodup_cons] at hnd
    obtain ⟨hk, hnd'⟩ := hnd
    rcases List.mem_cons.mp hmem with rfl | hmem'
    · simp [recRow]
    · have hne : recKey r ≠ (f, p) := by
        intro he
        apply hk
        rw [he]
        have : recKey (f, p, c) = (f, p) := rfl
        rw [← this]
        exact List.mem_map_of_mem recKey hmem'
      have hfalse : decide ((recRow r).1 = (f, p)) = false := by
        simp [recRow_fst, hne]
      rw [List.map_cons, List.find?_cons, hfalse]
      exact ih f p c hnd' hmem'

theorem queryPage_applyInserts (t : Table) (recs : List PageRec) (f : String) (p : Nat)
    (c : String) (hnd : (recs.map recKey).Nodup) (hmem : (f, p, c) ∈ recs) :
    queryPage (applyInserts t recs) f p = some (some c) := by
  rw [applyInserts_eq recs t hnd]
  unfold queryPage
  have h0 : (t.filter (fun row : Row => decide (row.1 ∉ recs.map recKey))).find?
      (fun row => decide (row.1 = (f, p))) = Option.none := by
    rw [List.find?_eq_none]
    intro row hrow
    have h1 := (List.mem_filter.mp hrow).2
    simp only [decide_not, Bool.not_eq_true', decide_eq_false_iff_not, not_not,
      Bool.not_eq_true, decide_eq_true_eq] at h1 ⊢
    intro hcontra
    apply h1
    rw [hcontra]
    have hk : recKey (f, p, c) = (f, p) := rfl
    rw [← hk]
    exact List.mem_map_of_mem recKey hmem
  rw [List.find?_append, h0, Option.none_or, find?_recRow recs f p c hnd hmem]
  rfl

theorem extractAll_isOk (fs : FS) :
    ∀ files : List String, (∀ g ∈ files, ∃ d, fs.read g = Except.ok d) →
      ∃ recs, extractAll fs files = Except.ok recs := by
  intro files
  induction files with
  | nil => intro _; exact ⟨[], rfl⟩
  | cons f rest ih =>
    intro h
    obtain ⟨d, hd⟩ := h f (List.mem_cons_self f rest)
    obtain ⟨recs, hrecs⟩ := ih (fun g hg => h g (List.mem_cons_of_mem f hg))
    exact ⟨_, extractAll_cons_ok fs f rest d recs hd hrecs⟩

theorem extract_pages_content (doc : PdfContent) (p : Nat) (c : String)
    (h : (p, c) ∈ extract_pages doc) : ∃ s, c = pyStrip s := by
  unfold extract_pages at h
  obtain ⟨ip, _, heq⟩ := List.mem_map.mp h
  exact ⟨ip.2.getD "", ((Prod.mk.injEq _ _ _ _).mp heq).2.symm⟩

theorem extractAll_content (fs : FS) :
    ∀ (files : List String) (recs : List PageRec),
      extractAll fs files = Except.ok recs → ∀ r ∈ recs, ∃ s, r.2.2 = pyStrip s := by
  intro files
  induction files with
  | nil =>
    intro recs h r hr
    rw [extractAll_nil] at h
    cases h
    cases hr
  | cons f rest ih =>
    intro recs h r hr
    unfold extractAll at h
    cases hread : fs.read f with
    | error e =>
      rw [hread] at h
      cases h
    | ok doc =>
      rw [hread] at h
      cases hrest : extractAll fs rest with
      | error g =>
        rw [hrest] at h
        cases h
      | ok rs =>
        rw [hrest] at h
        cases h
        rcases List.mem_append.mp hr with h1 | h2
        · obtain ⟨pc, hpc, rfl⟩ := List.mem_map.mp h1
          exact extract_pages_content doc pc.1 pc.2 (by simpa using hpc)
        · exact ih rs hrest r h2

theorem collect_pdf_files_zero (listing : List String) :
    collect_pdf_files listing 0 = [] := by
  unfold collect_pdf_files pySlice
  simp

theorem dropLast_iterate (m : Nat) :
    ∀ l : List α, List.dropLast^[m] l = l.take (l.length - m) := by
  induction m with
  | zero =>
    intro l
    simp [List.take_length]
  | succ m ih =>
    intro l
    rw [Function.iterate_succ_apply, ih l.dropLast, List.dropLast_eq_take l,
      List.take_take]
    congr 1
    rw [List.length_take]
    omega

theorem runInserts_of_ge (B : List PageRec) :
    ∀ (t : Table) (j : Nat), B.length ≤ j →
      runInserts t B (some j) = (applyInserts t B, false) := by
  induction B with
  | nil => intro t j _; rfl
  | cons r rs ih =>
    intro t j h
    cases j with
    | zero => simp at h
    | succ j => exact ih _ j (by simpa using h)

theorem ingest_pdfs_ok_full (fs : FS) (db : Option Table) (limit : Int)
    (recs : List PageRec) (hne : collect_pdf_files fs.listing limit ≠ [])
    (hex : extractAll fs (collect_pdf_files fs.listing limit) = Except.ok recs) :
    ingest_pdfs fs db limit .ok =
      ⟨.ok, some (applyInserts (db.getD []) recs),
        (.listed :: (collect_pdf_files fs.listing limit).map .extracted) ++ [.dbOpened]⟩ := by
  rw [ingest_pdfs_of_ok fs db limit .ok recs hne hex, store_no_fault]
  rfl

/-! ### The claims -/

/-- Claim C1: for every directory of valid PDF files, after `ingest_pdfs`
completes, querying the table for a given `(file_name, page_number)` of an
ingested file returns exactly the content the Page Extractor produced for
that page — the Store Writer applies no transformation of its own (the
leading/trailing whitespace trimming, empty string when no text is
extractable, already happened inside `extract_pages`). -/
theorem C1_round_trip (fs : FS) (db : Option Table) (limit : Int) (f : String)
    (doc : PdfContent) (p : Nat) (c : String)
    (hnodup : fs.listing.Nodup)
    (hvalid : ∀ g ∈ collect_pdf_files fs.listing limit, ∃ d, fs.read g = Except.ok d)
    (hmem : f ∈ collect_pdf_files fs.listing limit)
    (hread : fs.read f = Except.ok doc)
    (hpage : (p, c) ∈ extract_pages doc) :
    (ingest_pdfs fs db limit .ok).res = .ok ∧
    queryPage (((ingest_pdfs fs db limit .ok).db).getD []) f p = some (some c) := by
  obtain ⟨recs, hex⟩ := extractAll_isOk fs _ hvalid
  have hne := List.ne_nil_of_mem hmem
  rw [ingest_pdfs_ok_full fs db limit recs hne hex]
  refine ⟨rfl, ?_⟩
  show queryPage ((some (applyInserts (db.getD []) recs)).getD []) f p = some (some c)
  rw [Option.getD_some]
  exact queryPage_applyInserts (db.getD []) recs f p c
    (extractAll_keys_nodup fs _ recs (collect_pdf_files_nodup fs.listing limit hnodup) hex)
    (extractAll_mem_rec fs _ recs f doc p c hex hmem hread hpage)

theorem C1_witness :
    (ingest_pdfs sampleFS Option.none 5 .ok).res = .ok ∧
    queryPage (((ingest_pdfs sampleFS Option.none 5 .ok).db).getD []) "a.pdf" 1 =
      some (some "hi") :=
  C1_round_trip sampleFS Option.none 5 "a.pdf" sampleDoc 1 "hi"
    (by decide) (fun g _ => ⟨sampleDoc, rfl⟩) (by decide) rfl (by decide)

/-- Claim C2: `(file_name, page_number)` is a unique key of the stored
table (re-ingesting an existing key replaces the row, never duplicating
it), so running `ingest_pdfs` twice on the same unchanged source
directory and database leaves exactly the table contents of one run. -/
theorem C2_idempotent (fs : FS) (db : Option Table) (limit : Int)
    (hnodup : fs.listing.Nodup)
    (hok : (ingest_pdfs fs db limit .ok).res = .ok) :
    ingest_pdfs fs (ingest_pdfs fs db limit .ok).db limit .ok =
      ingest_pdfs fs db limit .ok ∧
    (∀ t, (ingest_pdfs fs db limit .ok).db = some t →
      (tableKeys (db.getD [])).Nodup → (tableKeys t).Nodup) := by
  cases hcol : collect_pdf_files fs.listing limit with
  | nil =>
    rw [ingest_pdfs_of_empty fs db limit .ok hcol] at hok
    cases hok
  | cons a as =>
    have hne : collect_pdf_files fs.listing limit ≠ [] := by rw [hcol]; simp
    cases hex : extractAll fs (collect_pdf_files fs.listing limit) with
    | error g =>
      rw [ingest_pdfs_of_error fs db limit .ok g hne hex] at hok
      cases hok
    | ok recs =>
      have hknd := extractAll_keys_nodup fs _ recs
        (collect_pdf_files_nodup fs.listing limit hnodup) hex
      have h1 := ingest_pdfs_ok_full fs db limit recs hne hex
      constructor
      · rw [h1]
        show ingest_pdfs fs (some (applyInserts (db.getD []) recs)) limit .ok = _
        rw [ingest_pdfs_ok_full fs (some (applyInserts (db.getD []) recs)) limit recs hne hex]
        rw [Option.getD_some, applyInserts_twice recs (db.getD []) hknd]
      · intro t ht hk0
        rw [h1] at ht
        have h2 : some (applyInserts (db.getD []) recs) = some t := ht
        rw [← Option.some.inj h2]
        exact tableKeys_applyInserts_nodup recs _ hk0

theorem C2_witness :
    ingest_pdfs sampleFS (ingest_pdfs sampleFS Option.none 5 .ok).db 5 .ok =
      ingest_pdfs sampleFS Option.none 5 .ok :=
  (C2_idempotent sampleFS Option.none 5 (by decide) (by decide)).1

/-- Claim C3: `store_pages_in_db` upserts the whole batch inside one
transaction: with no fault every triple is committed and the table
exists (its primary key stays unique); whenever the call raises, the
committed row contents are exactly the original ones — no partial
write; and every injected environment fault (failed connect, a failing
insert inside the batch, failed commit) does raise. -/
theorem C3_store_atomicity (records : List PageRec) (db : Option Table)
    (fault : StoreFault) :
    (fault = StoreFault.ok →
      store_pages_in_db records db fault =
        ⟨some (applyInserts (db.getD []) records), false⟩) ∧
    ((store_pages_in_db records db fault).err = true →
      ((store_pages_in_db records db fault).db).getD [] = db.getD []) ∧
    ((fault ≠ StoreFault.ok ∧ ∀ j, fault = StoreFault.insertFail j → j < records.length) →
      (store_pages_in_db records db fault).err = true) ∧
    ((tableKeys (db.getD [])).Nodup →
      (tableKeys ((store_pages_in_db records db StoreFault.ok).db.getD [])).Nodup) := by
  refine ⟨?_, ?_, ?_, ?_⟩
  · rintro rfl
    exact store_no_fault records db
  · intro herr
    cases fault with
    | ok =>
      rw [store_no_fault] at herr
      simp at herr
    | connectFail => rw [store_connectFault]
    | commitFail => rw [store_commitFault]; rfl
    | insertFail j =>
      by_cases hj : j < records.length
      · rw [store_insertFault records db j hj]; rfl
      · have hge : records.length ≤ j := by omega
        unfold store_pages_in_db at herr
        rw [if_neg (by simp)] at herr
        have hr := runInserts_of_ge records (db.getD []) j hge
        simp [insertFaultIdx, hr] at herr
  · rintro ⟨hne, hbound⟩
    cases fault with
    | ok => exact absurd rfl hne
    | connectFail => rw [store_connectFault]
    | commitFail => rw [store_commitFault]
    | insertFail j => rw [store_insertFault records db j (hbound j rfl)]
  · intro h0
    rw [store_no_fault]
    exact tableKeys_applyInserts_nodup records _ h0

theorem C3_witness :
    (store_pages_in_db [("a", 1, "x")] Option.none (.insertFail 0)).err = true ∧
    ((store_pages_in_db [("a", 1, "x")] Option.none (.insertFail 0)).db).getD [] = [] :=
  have h := C3_store_atomicity [("a", 1, "x")] Option.none (.insertFail 0)
  have herr := h.2.2.1 ⟨by decide, fun j hj => by cases hj; decide⟩
  ⟨herr, h.2.1 herr⟩

/-- Claim C4: on every valid PDF document with `n` pages,
`extract_pages` yields exactly `n` pairs whose page numbers are
`1, 2, …, n` in document order, and extracting again from the same
unchanged document yields the identical sequence. -/
theorem C4_extractor_complete (doc : PdfContent) :
    (extract_pages doc).length = doc.pages.length ∧
    (extract_pages doc).map Prod.fst = List.range' 1 doc.pages.length ∧
    extract_pages doc = extract_pages doc :=
  ⟨extract_pages_length doc, extract_pages_map_fst doc, rfl⟩

/-- Claim C5: for every directory and positive limit `L`,
`collect_pdf_files` returns exactly `min(k, L)` names (with `k` the
number of names matching `*.pdf` directly inside the directory), each
matching `*.pdf` and taken from the directory, sorted ascending by
name, equal to the first `L` entries of the sorted matching names; the
function is pure, so repeated calls agree. -/
theorem C5_file_lister (listing : List String) (L : Int) (hL : 0 < L) :
    (collect_pdf_files listing L).length =
      min ((listing.filter matchesGlobPdf).length) (Int.toNat L) ∧
    List.Sorted (fun a b => strLe a b = true) (collect_pdf_files listing L) ∧
    (∀ x ∈ collect_pdf_files listing L, matchesGlobPdf x = true ∧ x ∈ listing) ∧
    collect_pdf_files listing L =
      (List.insertionSort (fun a b => strLe a b = true)
        (listing.filter matchesGlobPdf)).take (Int.toNat L) ∧
    collect_pdf_files listing L = collect_pdf_files listing L := by
  refine ⟨?_, collect_pdf_files_sorted listing L,
    fun x hx => collect_pdf_files_mem listing L x hx, ?_, rfl⟩
  · rw [collect_pdf_files_length listing L (le_of_lt hL), Nat.min_comm]
  · unfold collect_pdf_files pySlice
    rw [if_pos (le_of_lt hL)]

theorem C5_witness :
    (0 : Int) < 1 ∧
    (collect_pdf_files ["b.pdf", "a.pdf"] 1).length =
      min ((["b.pdf", "a.pdf"].filter matchesGlobPdf).length) (Int.toNat 1) :=
  ⟨by decide, (C5_file_lister ["b.pdf", "a.pdf"] 1 (by decide)).1⟩

/-- Claim C6: when the Page Extractor fails on one of the listed files,
`ingest_pdfs` writes nothing to the database — it terminates with the
parse failure, leaves the database untouched (records of earlier files
are discarded), and never reaches the Store Writer, which runs only
after the loop over all files completes. -/
theorem C6_no_partial_persistence (fs : FS) (db : Option Table) (limit : Int)
    (fault : StoreFault) (f : String)
    (hex : extractAll fs (collect_pdf_files fs.listing limit) = Except.error f) :
    (ingest_pdfs fs db limit fault).db = db ∧
    (ingest_pdfs fs db limit fault).res = .parseFailed f ∧
    Event.dbOpened ∉ (ingest_pdfs fs db limit fault).trace := by
  have hne : collect_pdf_files fs.listing limit ≠ [] := by
    intro h
    rw [h, extractAll_nil] at hex
    cases hex
  rw [ingest_pdfs_of_error fs db limit fault f hne hex]
  refine ⟨rfl, rfl, ?_⟩
  simp

theorem C6_witness :
    (ingest_pdfs sampleFailFS Option.none 5 .ok).db = Option.none ∧
    (ingest_pdfs sampleFailFS Option.none 5 .ok).res = .parseFailed "c.pdf" ∧
    Event.dbOpened ∉ (ingest_pdfs sampleFailFS Option.none 5 .ok).trace :=
  C6_no_partial_persistence sampleFailFS Option.none 5 .ok "c.pdf" rfl

/-- Claim C7: when the File Lister returns no file, `ingest_pdfs` fails
with the no-files-found error right after listing — before any
extraction or database access — and the database state is unchanged
(in particular never created), with a non-zero exit. -/
theorem C7_fail_fast_empty (fs : FS) (db : Option Table) (limit : Int)
    (fault : StoreFault) (h : collect_pdf_files fs.listing limit = []) :
    ingest_pdfs fs db limit fault = ⟨.noFilesFound, db, [.listed]⟩ ∧
    exitCode IngestResult.noFilesFound ≠ 0 :=
  ⟨ingest_pdfs_of_empty fs db limit fault h, by decide⟩

theorem C7_witness :
    ingest_pdfs emptyFS Option.none 5 .ok = ⟨.noFilesFound, Option.none, [.listed]⟩ ∧
    exitCode IngestResult.noFilesFound ≠ 0 :=
  C7_fail_fast_empty emptyFS Option.none 5 .ok (by decide)

/-- Claim C8: when the source path does not exist or is not a directory
(an existing regular file included), `main` fails with the
invalid-source-directory error and non-zero exit before any file
listing, extraction, or database access happens: the run's trace is
empty and the database state is untouched. -/
theorem C8_source_validation (src : PathInfo) (fs : FS) (db : Option Table)
    (limit : Int) (fault : StoreFault)
    (h : src.pathExists = false ∨ src.isDir = false) :
    main src fs db limit fault = ⟨.invalidSourceDir, db, []⟩ ∧
    exitCode IngestResult.invalidSourceDir ≠ 0 := by
  constructor
  · unfold main
    rcases h with h | h <;> rw [h] <;> simp
  · decide

theorem C8_witness :
    main ⟨true, false⟩ sampleFS Option.none 5 .ok =
      ⟨.invalidSourceDir, Option.none, []⟩ ∧
    exitCode IngestResult.invalidSourceDir ≠ 0 :=
  C8_source_validation ⟨true, false⟩ sampleFS Option.none 5 .ok (Or.inr rfl)

/-- Claim C9: the positive-limit precondition is never validated:
with `limit = 0` the run raises the no-files-found error even when the
directory does contain PDF files, and with a negative limit the File
Lister follows Python slice semantics and drops `|limit|` entries from
the end of the sorted matching list instead of returning
`min(k, limit)` entries. -/
theorem C9_limit_not_validated (fs : FS) (db : Option Table) (fault : StoreFault)
    (listing : List String) (L : Int)
    (_hpdf : fs.listing.filter matchesGlobPdf ≠ [])
    (hneg : L < 0) :
    ingest_pdfs fs db 0 fault = ⟨.noFilesFound, db, [.listed]⟩ ∧
    collect_pdf_files listing L =
      List.dropLast^[L.natAbs]
        (List.insertionSort (fun a b => strLe a b = true)
          (listing.filter matchesGlobPdf)) := by
  constructor
  · exact ingest_pdfs_of_empty fs db 0 fault (collect_pdf_files_zero fs.listing)
  · rw [dropLast_iterate]
    unfold collect_pdf_files pySlice
    rw [if_neg (by omega)]

theorem C9_witness :
    ingest_pdfs sampleFS Option.none 0 .ok = ⟨.noFilesFound, Option.none, [.listed]⟩ ∧
    collect_pdf_files ["b.pdf", "a.pdf"] (-1) =
      List.dropLast^[(-1 : Int).natAbs]
        (List.insertionSort (fun a b => strLe a b = true)
          (["b.pdf", "a.pdf"].filter matchesGlobPdf)) :=
  C9_limit_not_validated sampleFS Option.none .ok ["b.pdf", "a.pdf"] (-1)
    (by decide) (by decide)

/-- Claim C10: every record the Orchestrator hands to the Store Writer
carries a content that is a string fixed under whitespace trimming, and
the row written for it stores that string, never NULL (although the
`content` column is nullable). -/
theorem C10_records_invariant (fs : FS) (files : List String) (recs : List PageRec)
    (hex : extractAll fs files = Except.ok recs) :
    ∀ r ∈ recs, pyStrip r.2.2 = r.2.2 ∧ (recRow r).2 ≠ Option.none := by
  intro r hr
  obtain ⟨s, hs⟩ := extractAll_content fs files recs hex r hr
  refine ⟨?_, by simp [recRow]⟩
  rw [hs, pyStrip_idem]

theorem C10_witness :
    pyStrip (("a.pdf", 1, "hi") : PageRec).2.2 = (("a.pdf", 1, "hi") : PageRec).2.2 ∧
    (recRow ("a.pdf", 1, "hi")).2 ≠ Option.none :=
  C10_records_invariant sampleFS ["a.pdf"] [("a.pdf", 1, "hi"), ("a.pdf", 2, "")]
    rfl ("a.pdf", 1, "hi") (by decide)

end PdfIngestion
